import Mathlib

/-!
Shallow embedding of the council orchestrator backend (Go) for verification
of its natural-language specification.

Sources embedded here:
- the orchestrator (package council): session start/validation, the mode
  dispatch, response collection, vote collection, winner determination,
  label generation, status writes, cancellation;
- the Elo rating calculator (package elo): expected score, K factor,
  pairwise score derivation, rating accumulation, rounding, and the write
  set of the rating-update transaction;
- the Copilot client (package copilot): ranking parse and vote request
  fallback.

Modelling conventions:
- Go strings are modelled as Lean String; byte-level scanning in the
  ranking parser is modelled over List Char (all labels are ASCII).
- float64 arithmetic of the Elo calculator is modelled as real arithmetic,
  and the float weights (0.5 / 1.0 / 1.5) as rationals.
- Go map iteration order is unspecified; folds here fix one order, and the
  stated theorems are order-insensitive (sums, memberships, unique maxima).
- Effectful calls (database writes, stream reads, broadcasts) are modelled
  by explicit result values: per-model stream outcomes are an input
  function, database writes are accumulated into lists, broadcasts into an
  event trace.
-/

namespace Council

/-- Session status constants of the orchestrator (part_006 lines 20-30). -/
inductive SessionStatus where
  | pending
  | responding
  | voting
  | synthesizing
  | completed
  | failed
  | cancelled
deriving DecidableEq, Repr

/-- Terminal statuses per the state machine of spec section 4.5. -/
def SessionStatus.isTerminal : SessionStatus → Bool
  | .completed => true
  | .failed => true
  | .cancelled => true
  | _ => false

/-- Modelled from the spec (section 4.5 state machine): the allowed status
transitions. This is the spec-side relation that claim C2 says every
status write enforces; the code-side write is updateSessionStatus below. -/
def specAllowed : SessionStatus → SessionStatus → Bool
  | .pending, .responding => true
  | .responding, .voting => true
  | .responding, .responding => true
  | .voting, .synthesizing => true
  | .synthesizing, .completed => true
  | s, .failed => !s.isTerminal
  | s, .cancelled => !s.isTerminal
  | _, _ => false

/-- Consecutive statuses of a sequence are all allowed transitions from
the given start status. -/
def specChainFrom (s : SessionStatus) : List SessionStatus → Bool
  | [] => true
  | t :: rest => specAllowed s t && specChainFrom t rest

/-- Modelled from the spec: a status sequence is a prefix of a path of the
section 4.5 machine iff it starts at pending and every consecutive write
is an allowed transition. -/
def specPathFromPending : List SessionStatus → Prop
  | [] => True
  | s :: rest => s = SessionStatus.pending ∧ specChainFrom s rest = true

/-- The orchestrator status write (part_006 lines 562-564):
UPDATE sessions SET status = ? WHERE id = ?. The row is the stored status
of the addressed session (none when the session does not exist). The SQL
statement carries no condition on the current status. -/
def updateSessionStatus (row : Option SessionStatus) (status : SessionStatus) :
    Option SessionStatus :=
  row.map fun _ => status

/-- CancelSession (part_006 lines 667-671): unconditional status write to
cancelled. The broadcast of council.cancelled is modelled in the event
trace further below. -/
def cancelSessionWrite (row : Option SessionStatus) : Option SessionStatus :=
  updateSessionStatus row .cancelled

/-- Go Mode is a string type; these are the three constants. -/
def modeStandard : String := "standard"

def modeDebate : String := "debate"

def modeTournament : String := "tournament"

/-- StartRequest (part_006 lines 40-50), restricted to the fields that the
validation and mode dispatch read. -/
structure StartRequest where
  question : String
  models : List String
  mode : String
deriving Repr, DecidableEq

/-- validateRequest (part_006 lines 204-221). Go passes req by value, so
the assignment req.Mode = ModeStandard mutates only the local copy; the
local variable m below models that copy from the assignment onward. -/
def validateRequest (req : StartRequest) : Option String :=
  if req.question = "" then some "question is required"
  else if req.models.length < 2 then some "at least 2 models are required"
  else if req.models.length > 8 then some "maximum 8 models allowed"
  else
    let m := if req.mode = "" then modeStandard else req.mode
    if m ≠ modeStandard ∧ m ≠ modeDebate ∧ m ≠ modeTournament then
      some ("invalid mode: " ++ m)
    else none

/-- The session row persisted by StartSession, restricted to the fields
claims reason about. -/
structure SessionRow where
  mode : String
  status : SessionStatus
deriving Repr, DecidableEq

/-- StartSession (part_006 lines 116-202): on validation success, inserts
the session with the mode taken from the caller request (the original
req.Mode, not the defaulted local copy inside validateRequest) and status
pending; on validation failure returns the error. -/
def startSession (req : StartRequest) : Except String SessionRow :=
  match validateRequest req with
  | some e => .error e
  | none => .ok { mode := req.mode, status := .pending }

/-- The three stage procedures that can run for a session. -/
inductive StageKind where
  | standard
  | debate
  | tournament
deriving DecidableEq, Repr

/-- The mode switch of executeCouncil (part_006 lines 232-239): which stage
procedure runs for a given session mode string. A switch with no matching
case runs nothing, hence none. -/
def executeCouncilStage (mode : String) : Option StageKind :=
  if mode = modeStandard then some .standard
  else if mode = modeDebate then some .debate
  else if mode = modeTournament then some .tournament
  else none

/-- generateLabels (part_006 lines 674-680): label i is "Response " followed
by the character at code point of the uppercase A shifted by i. -/
def generateLabels (count : Nat) : List String :=
  (List.range count).map fun i => "Response " ++ String.mk [Char.ofNat (65 + i)]

/-- One row of the responses table (part_006 lines 78-88), restricted to
the fields the claims reason about. -/
structure ResponseRow where
  modelId : String
  round : Nat
  content : String
  label : String
deriving DecidableEq, Repr

/-- The terminal outcome of one streaming prompt, as observed by the
goroutine of collectResponses: the content accumulated from the received
chunks, and whether the stream ended in an error (a timeout surfaces as a
chunk error). On failure the goroutine returns before the INSERT, so the
accumulated content is its discarded buffer. -/
structure StreamOutcome where
  content : String
  failed : Bool
deriving DecidableEq, Repr

/-- collectResponses (part_006 lines 353-454): fan out one stream per
model, pair model i with label i, insert a row per stream that completed
without error, and return the first recorded error when any stream failed.
Completion order is nondeterministic in Go; the row list is kept in model
order and the theorems below use only order-insensitive facts about it. -/
def collectResponses (models : List String) (outcome : String → StreamOutcome)
    (round : Nat) : List ResponseRow × Option String :=
  let labels := generateLabels models.length
  let rows := (models.zip labels).filterMap fun p =>
    if (outcome p.1).failed then none
    else some { modelId := p.1, round := round, content := (outcome p.1).content,
                label := p.2 }
  let failedModels := models.filter fun m => (outcome m).failed
  (rows, if failedModels.isEmpty then none else some "stream error")

/-- One row of the votes table (part_006 lines 90-98), restricted to the
fields the claims reason about. Weights are the exact float values 0.5,
1.0, 1.5, modelled as rationals. -/
structure VoteRow where
  voterType : String
  voterId : String
  ranked : List String
  weight : ℚ
deriving DecidableEq, Repr

/-- collectVotes (part_006 lines 456-522): voters are the responding
models plus the mystery judge when present; a voter whose RequestVote call
errors is skipped (the oracle returns none); the persisted weight is 1.5
for the mystery judge and 1.0 otherwise. The function always returns a nil
error. -/
def collectVotes (mystery : Option String) (models : List String)
    (oracle : String → Option (List String)) : List VoteRow × Option String :=
  let votingModels := models ++ (match mystery with | some j => [j] | none => [])
  (votingModels.filterMap fun m =>
    (oracle m).map fun ranking =>
      { voterType := "model", voterId := m, ranked := ranking,
        weight := if mystery = some m then (3 : ℚ) / 2 else 1 },
   none)

/-- SubmitUserVote (part_006 lines 658-665): a user ballot is persisted
with voter_type user and the hard-coded weight 0.5. -/
def submitUserVote (userId : String) (ranking : List String) : VoteRow :=
  { voterType := "user", voterId := userId, ranked := ranking, weight := (1 : ℚ) / 2 }

/-- The closed set of events the orchestrator broadcasts. Chunk events are
elided: claims reason only about event kinds and terminal events. -/
inductive Ev where
  | councilStarted
  | modelResponding (modelId label : String)
  | modelComplete (label : String)
  | votingStarted
  | voteReceived (voter : String)
  | synthesisStarted
  | synthesisComplete
  | councilCompleted
  | councilFailed (reason : String)
  | councilCancelled
  | tournamentChampion (champion : String)
deriving DecidableEq, Repr

/-- The three terminal event kinds of the live channel. -/
def Ev.isTerminal : Ev → Bool
  | .councilCompleted => true
  | .councilFailed _ => true
  | .councilCancelled => true
  | _ => false

/-- The per-stream events of collectResponses: model.responding is always
broadcast; model.complete only for a stream that finished without error. -/
def collectResponsesEvents (models : List String) (outcome : String → StreamOutcome) :
    List Ev :=
  (models.zip (generateLabels models.length)).flatMap fun p =>
    Ev.modelResponding p.1 p.2 ::
      (if (outcome p.1).failed then [] else [Ev.modelComplete p.2])

/-- The observable result of one background council run: the sequence of
status writes issued after the session was created in pending, the event
trace, and the rows written. -/
structure RunResult where
  statuses : List SessionStatus
  events : List Ev
  responses : List ResponseRow
  votes : List VoteRow
deriving DecidableEq, Repr

/-- executeCouncil followed by executeStandardMode (part_006 lines 223-278)
as a function of the per-stream outcomes, the vote oracle, the chairperson
and the synthesis outcome (some content, or none when RequestSynthesis
fails). executeCouncil first writes responding and broadcasts
council.started; executeStandardMode fails the session as soon as
collectResponses reports any error, otherwise advances through voting and
synthesizing; synthesize errors when no chairperson is assigned or the
provider call fails; completeSession writes completed. -/
def runStandard (models : List String) (outcome : String → StreamOutcome)
    (mystery : Option String) (voteOracle : String → Option (List String))
    (chairperson : Option String) (synthResult : Option String) : RunResult :=
  let respEvents := collectResponsesEvents models outcome
  let (resps, err) := collectResponses models outcome 1
  match err with
  | some e =>
      { statuses := [.responding, .failed],
        events := Ev.councilStarted :: respEvents ++ [Ev.councilFailed e],
        responses := resps, votes := [] }
  | none =>
      let (vs, _) := collectVotes mystery models voteOracle
      let voteEvents := vs.map fun v => Ev.voteReceived v.voterId
      let synthOk := chairperson.isSome && synthResult.isSome
      { statuses := [.responding, .voting, .synthesizing] ++
          (if synthOk then [.completed] else [.failed]),
        events := Ev.councilStarted :: respEvents ++
          Ev.votingStarted :: voteEvents ++ Ev.synthesisStarted ::
          (if synthOk then [Ev.synthesisComplete, Ev.councilCompleted]
           else [Ev.councilFailed "synthesis error"]),
        responses := resps, votes := vs }

/-- The scores map of determineWinner, as an association list updated in
insertion order: scores[label] += points. -/
def bumpScore (scores : List (String × Nat)) (label : String) (pts : Nat) :
    List (String × Nat) :=
  match scores with
  | [] => [(label, pts)]
  | (l, s) :: rest =>
      if l = label then (l, s + pts) :: rest else (l, s) :: bumpScore rest label pts

/-- The Borda accumulation of determineWinner (part_006 lines 692-698):
for each vote, label at index i receives len(ranked) − i points. The vote
weight is not read. -/
def tallyScores (votes : List VoteRow) : List (String × Nat) :=
  votes.foldl
    (fun sc v => (v.ranked.enum.foldl (fun sc p => bumpScore sc p.2 (v.ranked.length - p.1)) sc))
    []

/-- The max scan of determineWinner (part_006 lines 700-708): winner starts
as the empty string with maxScore 0, and each entry with a strictly larger
score replaces it. Go iterates the map in unspecified order; this fold
fixes insertion order, and the theorem below shows the result is the
unique strict maximizer, which is order-independent. -/
def determineWinner (votes : List VoteRow) : String :=
  ((tallyScores votes).foldl (fun acc p => if p.2 > acc.2 then p else acc) ("", 0)).1

/-- One pass of the bracket loop of executeTournamentMode (part_006 lines
316-341): models are paired in order; an odd trailing model advances
automatically; a pair whose response or vote collection errors contributes
no winner (the oracle returns none); otherwise the string returned by
determineWinner is appended to the winners as is. -/
def roundWinners (oracle : String → String → Option (List VoteRow)) :
    List String → List String
  | [] => []
  | [x] => [x]
  | a :: b :: rest =>
      (match oracle a b with
       | none => []
       | some votes => [determineWinner votes]) ++ roundWinners oracle rest

/-- The (model, label) assignment produced inside each tournament match:
executeTournamentMode calls collectResponses on the two match models, and
collectResponses regenerates labels from scratch for that two-model list. -/
def tournamentLabelPairs : List String → List (String × String)
  | [] => []
  | [_] => []
  | a :: b :: rest => List.zip [a, b] (generateLabels 2) ++ tournamentLabelPairs rest

/-- The (model, label) assignment of one collectResponses fan-out in
standard or debate mode: position i of the model list is paired with label
i. The round number plays no role in the assignment. -/
def respLabelAssignment (models : List String) : List (String × String) :=
  models.zip (generateLabels models.length)

/-- The round loop of executeDebateMode (part_006 lines 283-290) over the
listed round numbers, with per-round stream outcomes: the events broadcast
by the successive collectResponses calls up to and including the first
failing round, and the error of that round (none when every listed round
succeeds). The loop returns on the first error. -/
def debateRoundsLoop (models : List String) (outcome : Nat → String → StreamOutcome) :
    List Nat → List Ev × Option String
  | [] => ([], none)
  | r :: rest =>
      if ((collectResponses models (outcome r) r).2).isSome then
        (collectResponsesEvents models (outcome r),
         (collectResponses models (outcome r) r).2)
      else
        (collectResponsesEvents models (outcome r) ++
           (debateRoundsLoop models outcome rest).1,
         (debateRoundsLoop models outcome rest).2)

/-- executeCouncil followed by executeDebateMode (part_006 lines 280-310):
the status writes and the event trace. Debate mode writes voting and
synthesizing without broadcasting voting.started or synthesis.started;
collectVotes broadcasts voting.received per collected ballot; synthesize
broadcasts synthesis.complete on success; the run ends in completeSession
or failSession. -/
def runDebate (models : List String) (outcome : Nat → String → StreamOutcome)
    (rounds : Nat) (mystery : Option String)
    (voteOracle : String → Option (List String)) (chairperson : Option String)
    (synthResult : Option String) : List SessionStatus × List Ev :=
  match (debateRoundsLoop models outcome (List.range' 1 rounds)).2 with
  | some e =>
      ([.responding, .failed],
       Ev.councilStarted :: (debateRoundsLoop models outcome (List.range' 1 rounds)).1 ++
         [Ev.councilFailed e])
  | none =>
      ([.responding, .voting, .synthesizing] ++
         (if chairperson.isSome && synthResult.isSome then [SessionStatus.completed]
          else [SessionStatus.failed]),
       Ev.councilStarted :: (debateRoundsLoop models outcome (List.range' 1 rounds)).1 ++
         ((collectVotes mystery models voteOracle).1.map
           fun v => Ev.voteReceived v.voterId) ++
         (if chairperson.isSome && synthResult.isSome then
            [Ev.synthesisComplete, Ev.councilCompleted]
          else [Ev.councilFailed "synthesis error"]))

/-- The ballots one tournament match collects (part_006 lines 325-334):
none when the two-model collectResponses errors (the match is skipped),
otherwise the votes gathered from the two match models (plus the mystery
judge when present). This is the oracle shape roundWinners consumes. -/
def tournamentMatchBallots (mystery : Option String)
    (mOut : String → String → String → StreamOutcome)
    (mVotes : String → String → String → Option (List String))
    (a b : String) : Option (List VoteRow) :=
  if ((collectResponses [a, b] (mOut a b) 1).2).isSome then none
  else some (collectVotes mystery [a, b] (mVotes a b)).1

/-- The events one tournament match broadcasts: the per-stream events of
its collectResponses call (broadcast even when a stream errors), and the
voting.received events of its collectVotes call when the responses
succeeded. -/
def tournamentMatchEvents (mystery : Option String)
    (mOut : String → String → String → StreamOutcome)
    (mVotes : String → String → String → Option (List String))
    (a b : String) : List Ev :=
  collectResponsesEvents [a, b] (mOut a b) ++
    (match tournamentMatchBallots mystery mOut mVotes a b with
     | none => []
     | some votes => votes.map fun v => Ev.voteReceived v.voterId)

/-- The events of one pass of the bracket pairing loop (part_006 lines
317-339): matches in pair order; a bye broadcasts nothing. -/
def tournamentRoundEvents (mystery : Option String)
    (mOut : String → String → String → StreamOutcome)
    (mVotes : String → String → String → Option (List String)) :
    List String → List Ev
  | [] => []
  | [_] => []
  | a :: b :: rest =>
      tournamentMatchEvents mystery mOut mVotes a b ++
        tournamentRoundEvents mystery mOut mVotes rest

/-- The while loop of executeTournamentMode (part_006 lines 316-341): as
long as more than one participant remains, run a bracket round and recurse
on its winners. Returns the events broadcast by all matches and the final
remaining list. The winners list of a round over n ≥ 2 participants has at
most (n+1)/2 < n entries, so the loop terminates. -/
def tournamentLoop (mystery : Option String)
    (mOut : String → String → String → StreamOutcome)
    (mVotes : String → String → String → Option (List String))
    (remaining : List String) : List Ev × List String :=
  if h : remaining.length ≤ 1 then ([], remaining)
  else
    (tournamentRoundEvents mystery mOut mVotes remaining ++
       (tournamentLoop mystery mOut mVotes
         (roundWinners (tournamentMatchBallots mystery mOut mVotes) remaining)).1,
     (tournamentLoop mystery mOut mVotes
       (roundWinners (tournamentMatchBallots mystery mOut mVotes) remaining)).2)
termination_by remaining.length
decreasing_by
  all_goals
    have hb : ∀ (n : Nat) (l : List String), l.length ≤ n →
        (roundWinners (tournamentMatchBallots mystery mOut mVotes) l).length ≤
          (l.length + 1) / 2 := by
      intro n
      induction n with
      | zero =>
          intro l hl
          have hnil : l = [] := List.length_eq_zero.mp (Nat.le_zero.mp hl)
          subst hnil
          simp [roundWinners]
      | succ n ih =>
          intro l hl
          rcases l with - | ⟨a, rest1⟩
          · simp [roundWinners]
          · rcases rest1 with - | ⟨b, rest⟩
            · simp [roundWinners]
            · have hr : rest.length ≤ n := by
                simp only [List.length_cons] at hl
                omega
              have hrec := ih rest hr
              rcases hm : tournamentMatchBallots mystery mOut mVotes a b with - | v <;>
                · simp only [roundWinners, hm, List.length_append, List.length_cons,
                    List.length_nil]
                  omega
    have h2 := hb remaining.length remaining (le_refl _)
    omega

/-- The champion broadcast of executeTournamentMode (part_006 lines
343-348): emitted only when exactly one participant remains. -/
def championEvents : List String → List Ev
  | [c] => [Ev.tournamentChampion c]
  | _ => []

/-- executeCouncil followed by executeTournamentMode: the status writes
(tournament mode writes no voting or synthesizing status and never fails)
and the event trace ending in completeSession. -/
def runTournament (models : List String) (mystery : Option String)
    (mOut : String → String → String → StreamOutcome)
    (mVotes : String → String → String → Option (List String)) :
    List SessionStatus × List Ev :=
  ([.responding, .completed],
   Ev.councilStarted :: (tournamentLoop mystery mOut mVotes models).1 ++
     championEvents (tournamentLoop mystery mOut mVotes models).2 ++
     [Ev.councilCompleted])

/-- ExpectedScore (elo, client.go source lines 607-609):
1 / (1 + 10^((ratingB − ratingA)/400)), float64 arithmetic modelled over
the reals. -/
noncomputable def expectedScore (ratingA ratingB : ℤ) : ℝ :=
  1 / (1 + (10 : ℝ) ^ ((((ratingB : ℝ)) - ((ratingA : ℝ))) / 400))

/-- GetKFactor (elo source lines 612-620). -/
def getKFactor (gamesPlayed rating : ℤ) : ℤ :=
  if gamesPlayed < 30 then 25
  else if rating > 2000 then 10
  else 15

/-- The pairwise wins one ballot contributes to pairResults[a][b]: the
number of index pairs i < j with ballot[i] = a and ballot[j] = b (elo
source lines 655-666). -/
def ballotWins : List String → String → String → ℕ
  | [], _, _ => 0
  | x :: rest, a, b => (if x = a then rest.count b else 0) + ballotWins rest a b

/-- pairResults[a][b] accumulated over all ballots. -/
def pairScore (rankings : List (List String)) (a b : String) : ℕ :=
  (rankings.map fun r => ballotWins r a b).sum

/-- Whether the map entry pairResults[a][b] exists: some ballot compared a
and b in either direction (the += statements create entries on both
sides). Only existing entries are visited by the pair loop. -/
def coRanked (rankings : List (List String)) (a b : String) : Bool :=
  rankings.any fun r => decide (0 < ballotWins r a b + ballotWins r b a)

/-- The set of models named on any ballot (elo source lines 628-633); the
Go map keys are modelled as the deduplicated flattening, and every use
below is insensitive to the order fixed here. -/
def modelsOf (rankings : List (List String)) : List String :=
  rankings.flatten.dedup

/-- The rating adjustment model m receives from the pair it forms with
model o in the pair loop (elo source lines 674-697): when m is the
lexicographically smaller side the code adds K·(s − ExpectedScore(R_m,
R_o)); when m is the larger side it adds K·(s − (1 − ExpectedScore(R_o,
R_m))). s is the pair score averaged over the number of voters. -/
noncomputable def pairContribution (cur games : String → ℤ) (numVoters : ℕ)
    (rankings : List (List String)) (m o : String) : ℝ :=
  if m < o then
    ((getKFactor (games m) (cur m) : ℝ)) *
      (((pairScore rankings m o : ℝ)) / ((numVoters : ℝ)) -
        expectedScore (cur m) (cur o))
  else
    ((getKFactor (games m) (cur m) : ℝ)) *
      (((pairScore rankings m o : ℝ)) / ((numVoters : ℝ)) -
        (1 - expectedScore (cur o) (cur m)))

/-- The list of other models whose pair with m the loop processes: existing
entries pairResults[m][o] with o ≠ m (the guard modelA ≥ modelB skips the
diagonal and makes each unordered pair contribute once to each side). -/
def pairedWith (rankings : List (List String)) (m : String) : List String :=
  (modelsOf rankings).filter fun o => (o != m) && coRanked rankings m o

/-- The total accumulated ΔR of model m over the whole pair loop. -/
noncomputable def accumDelta (cur games : String → ℤ)
    (rankings : List (List String)) (m : String) : ℝ :=
  ((pairedWith rankings m).map
    (pairContribution cur games rankings.length rankings m)).sum

/-- newRatings[m] after the loop: the current rating plus the accumulated
delta (elo source lines 668-697). -/
noncomputable def newRatingReal (cur games : String → ℤ)
    (rankings : List (List String)) (m : String) : ℝ :=
  ((cur m : ℝ)) + accumDelta cur games rankings m

/-- int(math.Round(x)): round half away from zero, then convert. -/
noncomputable def goRound (x : ℝ) : ℤ :=
  if x < 0 then -⌊-x + 1 / 2⌋ else ⌊x + 1 / 2⌋

/-- The integer rating persisted for model m by the transaction body (elo
source line 703): no clamping is applied after rounding. -/
noncomputable def newRatingInt (cur games : String → ℤ)
    (rankings : List (List String)) (m : String) : ℤ :=
  goRound (newRatingReal cur games rankings m)

/-- The win counter the transaction stores for m (elo source lines
707-720): co-ranked opponents whose average score exceeds 0.6. Exact
rational arithmetic stands in for the float comparison. -/
def modelWins (rankings : List (List String)) (m : String) : ℕ :=
  ((pairedWith rankings m).filter fun o =>
    decide (((pairScore rankings m o : ℚ)) / ((rankings.length : ℚ)) > 3 / 5)).length

/-- The loss counter: average score below 0.4. -/
def modelLosses (rankings : List (List String)) (m : String) : ℕ :=
  ((pairedWith rankings m).filter fun o =>
    decide (((pairScore rankings m o : ℚ)) / ((rankings.length : ℚ)) < 2 / 5)).length

/-- The draw counter: the remaining co-ranked opponents. -/
def modelDraws (rankings : List (List String)) (m : String) : ℕ :=
  ((pairedWith rankings m).filter fun o =>
    decide (¬ (((pairScore rankings m o : ℚ)) / ((rankings.length : ℚ)) > 3 / 5) ∧
      ¬ (((pairScore rankings m o : ℚ)) / ((rankings.length : ℚ)) < 2 / 5))).length

/-- recordHistory reason (elo source lines 806-814). -/
def historyReason (change : ℤ) : String :=
  if change > 0 then "win" else if change < 0 then "loss" else "draw"

/-- The write kinds a rating-update transaction can issue against the
store: a model_ratings upsert, an elo_history insert, or a matchups upsert
(the statement of UpdateMatchup, elo source lines 824-850). -/
inductive TxOp where
  | ratingWrite (modelId : String) (rating : ℤ) (wins losses draws : ℕ)
  | historyWrite (modelId : String) (oldRating newRating change : ℤ) (reason : String)
  | matchupWrite (modelA modelB : String) (winnerId : String)
deriving DecidableEq, Repr

/-- Whether a transaction write touches the matchups table. -/
def TxOp.isMatchup : TxOp → Bool
  | .matchupWrite _ _ _ => true
  | _ => false

/-- The ordered write set of the WithTx body of UpdateRatings (elo source
lines 700-741): per model, one model_ratings write and one elo_history
write. No other statement is issued inside the transaction. -/
noncomputable def updateRatingsTxOps (cur games : String → ℤ)
    (rankings : List (List String)) : List TxOp :=
  (modelsOf rankings).flatMap fun m =>
    let oldR := cur m
    let newR := newRatingInt cur games rankings m
    [TxOp.ratingWrite m newR (modelWins rankings m) (modelLosses rankings m)
       (modelDraws rankings m),
     TxOp.historyWrite m oldR newR (newR - oldR) (historyReason (newR - oldR))]

/-- Modelled from the spec (section 4.3 steps 7 and 9): the determined
winner of an unordered pair, used to state claim C5. For a pair a < b with
average score sA, sA > 0.6 makes a the winner and sA < 0.4 makes b the
winner; otherwise the pair has no determined winner. -/
def specDeterminedWinner (rankings : List (List String)) (a b : String) :
    Option String :=
  if ((pairScore rankings a b : ℚ)) / ((rankings.length : ℚ)) > 3 / 5 then some a
  else if ((pairScore rankings a b : ℚ)) / ((rankings.length : ℚ)) < 2 / 5 then some b
  else none

/-- Modelled from the spec, literally as claim C3 words it: for the pair
{A, B} with A < B the accumulation uses E(A,B) on the A side and E(B,B) on
the B side, E being the expected-score function. For model m this is the
per-opponent contribution under that reading. -/
noncomputable def claimPairContributionAsWritten (cur games : String → ℤ)
    (numVoters : ℕ) (rankings : List (List String)) (m o : String) : ℝ :=
  if m < o then
    ((getKFactor (games m) (cur m) : ℝ)) *
      (((pairScore rankings m o : ℝ)) / ((numVoters : ℝ)) -
        expectedScore (cur m) (cur o))
  else
    ((getKFactor (games m) (cur m) : ℝ)) *
      (((pairScore rankings m o : ℝ)) / ((numVoters : ℝ)) -
        expectedScore (cur m) (cur m))

/-- The total ΔR of model m under the literal reading of claim C3. -/
noncomputable def claimDeltaAsWritten (cur games : String → ℤ)
    (rankings : List (List String)) (m : String) : ℝ :=
  ((pairedWith rankings m).map
    (claimPairContributionAsWritten cur games rankings.length rankings m)).sum

/-- Modelled from the spec as amended: both sides of a pair use the
expected score oriented from the model being updated, E(m, o). -/
noncomputable def claimPairContributionAmended (cur games : String → ℤ)
    (numVoters : ℕ) (rankings : List (List String)) (m o : String) : ℝ :=
  ((getKFactor (games m) (cur m) : ℝ)) *
    (((pairScore rankings m o : ℝ)) / ((numVoters : ℝ)) -
      expectedScore (cur m) (cur o))

/-- The total ΔR of model m under the amended claim C3. -/
noncomputable def claimDeltaAmended (cur games : String → ℤ)
    (rankings : List (List String)) (m : String) : ℝ :=
  ((pairedWith rankings m).map
    (claimPairContributionAmended cur games rankings.length rankings m)).sum

/-- isAlphaNum (client.go lines 496-498), over chars standing for the Go
bytes (all labels are ASCII). -/
def isAlphaNum (b : Char) : Bool :=
  (('a' ≤ b && b ≤ 'z') || ('A' ≤ b && b ≤ 'Z') || ('0' ≤ b && b ≤ '9'))

/-- response[i : i+len(label)] == label. -/
def matchAt (resp label : List Char) (i : Nat) : Bool :=
  ((resp.drop i).take label.length) == label

/-- The word-boundary test of parseRanking (client.go lines 475-477):
validStart and validEnd. Out-of-range reads cannot occur in the Go code at
the positions probed; getD supplies a blank that is never inspected in
range. -/
def boundariesOk (resp label : List Char) (i : Nat) : Bool :=
  (decide (i = 0) || !isAlphaNum (resp.getD (i - 1) ' ')) &&
    (decide (resp.length ≤ i + label.length) || !isAlphaNum (resp.getD (i + label.length) ' '))

/-- Whether the scanning loop of parseRanking finds label in the response
at some word-boundary position (client.go lines 471-483). The Go loop
bound i ≤ len(response) − len(label) runs no iteration when the label is
longer than the response. -/
def foundIn (resp label : List Char) : Bool :=
  if resp.length < label.length then false
  else (List.range (resp.length - label.length + 1)).any fun i =>
    matchAt resp label i && boundariesOk resp label i

/-- The first loop of parseRanking: in validLabels order, append each
not-yet-seen label that the scan finds, marking it seen. Returns the
partial result and the final seen set. -/
def parseLoop1 (resp : List Char) (seen : List (List Char)) :
    List (List Char) → List (List Char) × List (List Char)
  | [] => ([], seen)
  | l :: ls =>
      if l ∉ seen ∧ foundIn resp l = true then
        (l :: (parseLoop1 resp (seen ++ [l]) ls).1,
         (parseLoop1 resp (seen ++ [l]) ls).2)
      else parseLoop1 resp seen ls

/-- parseRanking (client.go lines 466-494): labels found at word
boundaries, in validLabels order, followed by the labels never marked seen,
again in validLabels order. -/
def parseRanking (resp : List Char) (validLabels : List (List Char)) :
    List (List Char) :=
  (parseLoop1 resp [] validLabels).1 ++
    validLabels.filter fun l => decide (l ∉ (parseLoop1 resp [] validLabels).2)

/-- RequestVote (client.go lines 418-463), after the provider answered:
parse the ranking out of the answer; when the parse yields nothing, fall
back to the labels in their input order. -/
def requestVoteRanking (resp : List Char) (labels : List (List Char)) :
    List (List Char) :=
  let ranking := parseRanking resp labels
  if ranking.isEmpty then labels else ranking

/-- CancelSession (part_006 lines 667-671) broadcasts council.cancelled
unconditionally: it reads no status and the background run keeps going, so
whenever a cancel request arrives after a run finished, the subscriber
stream is the run trace followed by council.cancelled. -/
def runThenCancelEvents (r : RunResult) : List Ev :=
  r.events ++ [Ev.councilCancelled]

/-- A two-model scenario in which both streams succeed. -/
def demoOutcomeAllOk : String → StreamOutcome := fun m =>
  if m = "m1" then { content := "x1", failed := false }
  else { content := "x2", failed := false }

/-- A two-model scenario in which the second stream errors after buffering
some content. -/
def demoOutcomeOneFail : String → StreamOutcome := fun m =>
  if m = "m2" then { content := "x2 cut", failed := true }
  else { content := "x1", failed := false }

/-- A voter oracle in which every voter answers with the full label list. -/
def demoVoteOracle : String → Option (List String) := fun _ =>
  some ["Response A", "Response B"]

/-- Games-played lookup for a fresh pair of models. -/
def zeroGames : String → ℤ := fun _ => 0

/-- Ratings 1500 and 1900 for the two models of the claim C3 scenario. -/
def c3cur : String → ℤ := fun s => if s = "a" then 1500 else 1900

/-- One voter ranking model a above model b. -/
def c3rankings : List (List String) := [["a", "b"]]

/-- Ratings 0 and 400 for the two models of the claim C4 scenario. -/
def c4cur : String → ℤ := fun s => if s = "a" then 0 else 400

/-- One voter ranking model b above model a. -/
def c4rankings : List (List String) := [["b", "a"]]

/-- The unweighted Borda score of one label over a ballot list: label at
index i of a ballot contributes len(ballot) − i, regardless of the ballot
weight. This closed form is what tallyScores accumulates. -/
def unweightedBorda (votes : List VoteRow) (l : String) : ℕ :=
  (votes.map fun v =>
    ((v.ranked.enum.map fun p => if p.2 = l then v.ranked.length - p.1 else 0).sum)).sum

/-- The labels named on any ballot of a vote list. -/
def ballotLabels (votes : List VoteRow) : List String :=
  (votes.map VoteRow.ranked).flatten

/-- First-match lookup in the scores association list (the Go map read
scores[label], with absent keys reading 0). -/
def scoreOf : List (String × Nat) → String → ℕ
  | [], _ => 0
  | (k, s) :: rest, l => if k = l then s else scoreOf rest l

/-- A one-ballot match vote list used to witness the tournament winner
theorems. -/
def demoMatchVotes : List VoteRow :=
  [{ voterType := "model", voterId := "v1",
     ranked := ["Response A", "Response B"], weight := 1 }]

/-!
Theorems. Each claim of the specification audit is settled by one theorem
below (with a witness where the theorem carries hypotheses, and a
counterexample theorem where the claim as stated fails on the code).
-/

/-- Claim C10: a start request whose mode is the empty string passes
validateRequest (the standard default is assigned only to the by-value
copy), is persisted with the empty mode, and matches no branch of the
executeCouncil mode switch, so no stage runs for the session. -/
theorem emptyModeRunsNoStage (req : StartRequest) (hmode : req.mode = "")
    (hq : req.question ≠ "") (h2 : 2 ≤ req.models.length)
    (h8 : req.models.length ≤ 8) :
    validateRequest req = none ∧
    startSession req = Except.ok { mode := "", status := SessionStatus.pending } ∧
    executeCouncilStage req.mode = none := by
  have hv : validateRequest req = none := by
    unfold validateRequest
    rw [if_neg hq, if_neg (by omega), if_neg (by omega), hmode]
    simp [modeStandard, modeDebate, modeTournament]
  refine ⟨hv, ?_, by rw [hmode]; decide⟩
  unfold startSession
  rw [hv, hmode]

/-- Witness for claim C10 at the concrete request with question Q, two
models and the empty mode string. -/
theorem emptyModeRunsNoStageWitness :
    validateRequest { question := "Q", models := ["m1", "m2"], mode := "" } = none ∧
    startSession { question := "Q", models := ["m1", "m2"], mode := "" } =
      Except.ok { mode := "", status := SessionStatus.pending } ∧
    executeCouncilStage (StartRequest.mode
      { question := "Q", models := ["m1", "m2"], mode := "" }) = none :=
  emptyModeRunsNoStage _ rfl (by decide) (by decide) (by decide)

/-- Claim C2 counterexample: the status write issued by CancelSession
overwrites a stored terminal status completed with cancelled even though
the state machine permits no transition out of completed, so the stored
status of a terminal session does change again. -/
theorem cancelOverwritesTerminalStatus :
    cancelSessionWrite (some SessionStatus.completed) = some SessionStatus.cancelled ∧
    SessionStatus.isTerminal SessionStatus.completed = true ∧
    specAllowed SessionStatus.completed SessionStatus.cancelled = false := by
  decide

/-- Claim C2 as amended: every status write of the orchestrator is an
unconditional overwrite — for any existing row it stores the new status
whatever the old one was — and consequently the stored status sequence of
a session is not constrained to the section 4.5 machine: the reachable
sequence pending, responding, voting, synthesizing, completed, cancelled
is not a prefix of any path. -/
theorem statusWritesUnconditional (old next : SessionStatus) :
    updateSessionStatus (some old) next = some next ∧
    ¬ specPathFromPending [SessionStatus.pending, SessionStatus.responding,
        SessionStatus.voting, SessionStatus.synthesizing, SessionStatus.completed,
        SessionStatus.cancelled] := by
  refine ⟨rfl, ?_⟩
  unfold specPathFromPending
  decide

/-- Claim C1 counterexample: with two participants of which exactly one
stream fails, executeStandardMode transitions the session to failed (not
through voting and completion), and the failed participant's buffered
content x2 cut is not recorded among the responses. -/
theorem singleFailureFailsSession :
    (runStandard ["m1", "m2"] demoOutcomeOneFail none demoVoteOracle (some "m1")
        (some "synth")).statuses = [SessionStatus.responding, SessionStatus.failed] ∧
    ((runStandard ["m1", "m2"] demoOutcomeOneFail none demoVoteOracle (some "m1")
        (some "synth")).responses.map ResponseRow.content) = ["x1"] ∧
    (demoOutcomeOneFail "m1").failed = false := by
  decide

/-- Claim C9 counterexample: a cancel request arriving after a completed
standard-mode run broadcasts council.cancelled on top of the already
published council.completed, so the stream carries two terminal events
(and an event after a terminal event). -/
theorem cancelAfterCompletionTwoTerminalEvents :
    ((runThenCancelEvents (runStandard ["m1", "m2"] demoOutcomeAllOk none
        demoVoteOracle (some "m1") (some "synth"))).countP Ev.isTerminal) = 2 := by
  decide

/-- Claim C8 counterexample: in tournament mode with four distinct
participants, labels are regenerated per match, so Response A is assigned
to both m1 and m3 — the session-wide label assignment is not a bijection
with the participants and a model's label is not constant across matches. -/
theorem tournamentLabelsNotBijective :
    tournamentLabelPairs ["m1", "m2", "m3", "m4"] =
      [("m1", "Response A"), ("m2", "Response B"), ("m3", "Response A"),
       ("m4", "Response B")] ∧
    ¬ ((tournamentLabelPairs ["m1", "m2", "m3", "m4"]).map Prod.snd).Nodup ∧
    (["m1", "m2", "m3", "m4"] : List String).Nodup := by
  decide

/-- Claim C6 counterexample: in a tournament match between m1 and m2, the
string that advances to the next round is the winning anonymous label
itself (Response A), not the owning model id — determineWinner's result is
appended to the winners list without any mapping back. -/
theorem tournamentAdvancesLabelNotModel :
    roundWinners (fun _ _ => some
        [{ voterType := "model", voterId := "m1",
           ranked := ["Response A", "Response B"], weight := 1 },
         { voterType := "model", voterId := "m2",
           ranked := ["Response A", "Response B"], weight := 3 / 2 }])
      ["m1", "m2"] = ["Response A"] ∧
    ("Response A" ∉ (["m1", "m2"] : List String)) := by
  decide

theorem filter_isEmpty_eq_not_any {α : Type} (p : α → Bool) (l : List α) :
    (l.filter p).isEmpty = !(l.any p) := by
  induction l with
  | nil => rfl
  | cons a l ih =>
      by_cases h : p a <;> simp [List.filter_cons, h, ih]

theorem collectResponses_all_ok (models : List String)
    (outcome : String → StreamOutcome) (round : Nat) :
    ((collectResponses models outcome round).1).all
      (fun r => !(outcome r.modelId).failed) = true := by
  simp only [collectResponses, List.all_eq_true]
  intro r hr
  simp only [List.mem_filterMap] at hr
  obtain ⟨p, hp, hcond⟩ := hr
  by_cases hf : (outcome p.1).failed
  · simp [hf] at hcond
  · simp only [hf, if_neg, Bool.false_eq_true, not_false_eq_true, if_false] at hcond
    have hr := Option.some.inj hcond
    rw [← hr]
    simp [hf]

theorem collectResponses_snd (models : List String)
    (outcome : String → StreamOutcome) (round : Nat) :
    (collectResponses models outcome round).2 =
      (if models.any (fun m => (outcome m).failed) then some "stream error"
       else none) := by
  simp only [collectResponses, filter_isEmpty_eq_not_any]
  by_cases h : models.any (fun m => (outcome m).failed) <;> simp [h]

/-- Claim C1 as amended: in standard mode the session transitions to
failed as soon as any participant stream fails (collectResponses returns
the first recorded error, executeStandardMode fails the session, the
failed participant's buffer is not recorded); only when no stream fails
does the session continue through voting and synthesizing to completed
(or to failed when synthesis itself fails). -/
theorem runStandardStatuses (models : List String)
    (outcome : String → StreamOutcome) (mystery : Option String)
    (voteOracle : String → Option (List String)) (chairperson : Option String)
    (synthResult : Option String) :
    (runStandard models outcome mystery voteOracle chairperson synthResult).statuses =
      (if models.any (fun m => (outcome m).failed) then
        [SessionStatus.responding, SessionStatus.failed]
      else
        [SessionStatus.responding, SessionStatus.voting, SessionStatus.synthesizing] ++
          (if chairperson.isSome && synthResult.isSome then [SessionStatus.completed]
           else [SessionStatus.failed])) ∧
    (runStandard models outcome mystery voteOracle chairperson synthResult).responses.all
      (fun r => !(outcome r.modelId).failed) = true := by
  have hall := collectResponses_all_ok models outcome 1
  have hsnd := collectResponses_snd models outcome 1
  rcases hx : collectResponses models outcome 1 with ⟨rows, err⟩
  rw [hx] at hall hsnd
  by_cases h : models.any (fun m => (outcome m).failed)
  · simp only [h, if_pos] at hsnd
    subst hsnd
    simp [runStandard, hx, h, hall]
  · simp only [h, if_neg, Bool.false_eq_true, not_false_eq_true] at hsnd
    subst hsnd
    simp [runStandard, hx, h, hall]

theorem collectResponsesEvents_no_terminal (models : List String)
    (outcome : String → StreamOutcome) :
    (collectResponsesEvents models outcome).countP Ev.isTerminal = 0 := by
  simp only [collectResponsesEvents, List.countP_eq_zero]
  intro e he
  simp only [List.mem_flatMap, List.mem_cons] at he
  obtain ⟨p, hp, he⟩ := he
  rcases he with rfl | he
  · simp [Ev.isTerminal]
  · by_cases hf : (outcome p.1).failed
    · simp [hf] at he
    · simp only [hf, Bool.false_eq_true, not_false_eq_true, if_false,
        List.mem_singleton] at he
      subst he
      simp [Ev.isTerminal]

theorem voteReceivedEvents_no_terminal (vs : List VoteRow) :
    ((vs.map fun v => Ev.voteReceived v.voterId).countP Ev.isTerminal) = 0 := by
  simp only [List.countP_eq_zero, List.mem_map]
  rintro e ⟨v, hv, rfl⟩
  simp [Ev.isTerminal]

/-- A standard-mode run publishes exactly one terminal event, and it is
the last event of the stream. -/
theorem runStandardOneTerminalEvent (models : List String)
    (outcome : String → StreamOutcome) (mystery : Option String)
    (voteOracle : String → Option (List String)) (chairperson : Option String)
    (synthResult : Option String) :
    ((runStandard models outcome mystery voteOracle chairperson
        synthResult).events.countP Ev.isTerminal) = 1 ∧
    ∃ front last, (runStandard models outcome mystery voteOracle chairperson
        synthResult).events = front ++ [last] ∧ Ev.isTerminal last = true := by
  rcases hx : collectResponses models outcome 1 with ⟨rows, err⟩
  rcases err with - | e
  · by_cases hs : chairperson.isSome && synthResult.isSome
    · constructor
      · simp [runStandard, hx, hs, List.countP_cons, List.countP_append,
          collectResponsesEvents_no_terminal, voteReceivedEvents_no_terminal,
          Ev.isTerminal]
      · refine ⟨Ev.councilStarted :: collectResponsesEvents models outcome ++
          Ev.votingStarted :: ((collectVotes mystery models voteOracle).1.map
            fun v => Ev.voteReceived v.voterId) ++
          [Ev.synthesisStarted, Ev.synthesisComplete], Ev.councilCompleted, ?_, rfl⟩
        simp [runStandard, hx, hs]
    · constructor
      · simp [runStandard, hx, hs, List.countP_cons, List.countP_append,
          collectResponsesEvents_no_terminal, voteReceivedEvents_no_terminal,
          Ev.isTerminal]
      · refine ⟨Ev.councilStarted :: collectResponsesEvents models outcome ++
          Ev.votingStarted :: ((collectVotes mystery models voteOracle).1.map
            fun v => Ev.voteReceived v.voterId) ++
          [Ev.synthesisStarted], Ev.councilFailed "synthesis error", ?_, rfl⟩
        simp [runStandard, hx, hs]
  · constructor
    · simp [runStandard, hx, List.countP_cons, List.countP_append,
        collectResponsesEvents_no_terminal, Ev.isTerminal]
    · refine ⟨Ev.councilStarted :: collectResponsesEvents models outcome,
        Ev.councilFailed e, ?_, rfl⟩
      simp [runStandard, hx]

theorem charShift_inj (i j : Nat) (hi : i < 26) (hj : j < 26)
    (h : Char.ofNat (65 + i) = Char.ofNat (65 + j)) : i = j := by
  have hvi : (65 + i).isValidChar := Or.inl (by omega)
  have hvj : (65 + j).isValidChar := Or.inl (by omega)
  have hc := congrArg Char.toNat h
  unfold Char.ofNat at hc
  rw [dif_pos hvi, dif_pos hvj] at hc
  simp [Char.ofNatAux, Char.toNat, UInt32.toNat, UInt32.ofNatCore] at hc
  omega

theorem generateLabels_nodup (count : Nat) (h : count ≤ 26) :
    (generateLabels count).Nodup := by
  apply List.Nodup.map_on ?_ (List.nodup_range count)
  intro i hi j hj heq
  simp only [List.mem_range] at hi hj
  have hd := congrArg String.data heq
  simp only [String.data_append] at hd
  have hc : Char.ofNat (65 + i) = Char.ofNat (65 + j) := by
    have := List.append_cancel_left hd
    simpa using this
  exact charShift_inj i j (by omega) (by omega) hc

theorem generateLabels_length (count : Nat) :
    (generateLabels count).length = count := by
  simp [generateLabels]

theorem filterMap_resp_map (outcome : String → StreamOutcome) (round : Nat)
    (l : List (String × String)) :
    ((l.filterMap fun p =>
        if (outcome p.1).failed then none
        else some { modelId := p.1, round := round, content := (outcome p.1).content,
                    label := p.2 : ResponseRow }).map
      fun resp => (resp.modelId, resp.label)) =
      l.filter fun p => !(outcome p.1).failed := by
  induction l with
  | nil => rfl
  | cons p l ih =>
      by_cases hf : (outcome p.1).failed <;>
        simp [List.filterMap_cons, List.filter_cons, hf, ih]

/-- Claim C8 as amended: in standard and debate modes the label assignment
pairs participant i with label i of the generated prefix — a bijection
whenever the participants are distinct and at most 26 — and the assignment
does not depend on the round number, so a model keeps its label across
debate rounds; in tournament mode, however, labels are regenerated per
match, pairing the two match models with Response A and Response B anew in
every match. -/
theorem labelAssignmentByPosition (models : List String)
    (outcome : String → StreamOutcome) (r : Nat) (a b : String)
    (rest : List String) (h26 : models.length ≤ 26) (hnd : models.Nodup) :
    (generateLabels models.length).Nodup ∧
    ((respLabelAssignment models).map Prod.fst).Nodup ∧
    ((respLabelAssignment models).map Prod.fst) = models ∧
    ((respLabelAssignment models).map Prod.snd) = generateLabels models.length ∧
    (((collectResponses models outcome r).1).map
        fun resp => (resp.modelId, resp.label)) =
      (respLabelAssignment models).filter (fun p => !(outcome p.1).failed) ∧
    tournamentLabelPairs (a :: b :: rest) =
      (a, "Response A") :: (b, "Response B") :: tournamentLabelPairs rest := by
  have hfst : ((respLabelAssignment models).map Prod.fst) = models := by
    apply List.map_fst_zip
    rw [generateLabels_length]
  refine ⟨generateLabels_nodup _ h26, by rw [hfst]; exact hnd, hfst, ?_, ?_, ?_⟩
  · apply List.map_snd_zip
    rw [generateLabels_length]
  · simpa only [collectResponses] using
      filterMap_resp_map outcome r (models.zip (generateLabels models.length))
  · have h2 : generateLabels 2 = ["Response A", "Response B"] := by decide
    simp [tournamentLabelPairs, h2]

theorem txOps_countP_matchup (cur games : String → ℤ)
    (rankings : List (List String)) :
    ((updateRatingsTxOps cur games rankings).countP TxOp.isMatchup) = 0 := by
  rw [List.countP_eq_zero]
  intro op hop
  simp only [updateRatingsTxOps, List.mem_flatMap, List.mem_cons,
    List.mem_singleton, List.not_mem_nil] at hop
  obtain ⟨m, hm, hop⟩ := hop
  rcases hop with rfl | rfl | h
  · simp [TxOp.isMatchup]
  · simp [TxOp.isMatchup]
  · simp at h

/-- Claim C5 as amended: the rating-update transaction writes, per
involved model, one model_ratings row and one elo_history row — and
nothing else: in particular it issues no matchups write, for any input
(UpdateMatchup exists in the source but is never invoked by
UpdateRatings). -/
theorem updateRatingsWritesNoMatchup (cur games : String → ℤ)
    (rankings : List (List String)) :
    ((updateRatingsTxOps cur games rankings).countP TxOp.isMatchup) = 0 ∧
    ∀ m ∈ modelsOf rankings,
      (TxOp.ratingWrite m (newRatingInt cur games rankings m)
          (modelWins rankings m) (modelLosses rankings m) (modelDraws rankings m)) ∈
        updateRatingsTxOps cur games rankings ∧
      (TxOp.historyWrite m (cur m) (newRatingInt cur games rankings m)
          (newRatingInt cur games rankings m - cur m)
          (historyReason (newRatingInt cur games rankings m - cur m))) ∈
        updateRatingsTxOps cur games rankings := by
  refine ⟨txOps_countP_matchup cur games rankings, ?_⟩
  intro m hm
  constructor
  · simp only [updateRatingsTxOps, List.mem_flatMap]
    exact ⟨m, hm, by simp⟩
  · simp only [updateRatingsTxOps, List.mem_flatMap]
    exact ⟨m, hm, by simp⟩

/-- Witness for the amended claim C5 at the one-ballot input over models a
and b. -/
theorem updateRatingsWritesNoMatchupWitness :
    ((updateRatingsTxOps c3cur zeroGames [["a", "b"]]).countP TxOp.isMatchup) = 0 ∧
    (TxOp.ratingWrite "a" (newRatingInt c3cur zeroGames [["a", "b"]] "a")
        (modelWins [["a", "b"]] "a") (modelLosses [["a", "b"]] "a")
        (modelDraws [["a", "b"]] "a")) ∈
      updateRatingsTxOps c3cur zeroGames [["a", "b"]] :=
  ⟨(updateRatingsWritesNoMatchup c3cur zeroGames [["a", "b"]]).1,
   ((updateRatingsWritesNoMatchup c3cur zeroGames [["a", "b"]]).2 "a" (by decide)).1⟩

/-- Claim C5 counterexample: over the single ballot that ranks a above b,
the pair has a determined winner (a, with average score 1 > 0.6), yet the
rating-update transaction contains no matchups write at all — the
head-to-head counter is not incremented alongside ratings and history. -/
theorem ratingUpdateOmitsMatchup :
    specDeterminedWinner [["a", "b"]] "a" "b" = some "a" ∧
    ("a" : String) < "b" ∧
    ((updateRatingsTxOps c3cur zeroGames [["a", "b"]]).countP TxOp.isMatchup) = 0 := by
  refine ⟨?_, ?_, txOps_countP_matchup c3cur zeroGames [["a", "b"]]⟩
  · have h1 : pairScore [["a", "b"]] "a" "b" = 1 := by decide
    unfold specDeterminedWinner
    rw [h1]
    rw [if_pos (by push_cast; norm_num)]
  · rw [String.lt_iff_toList_lt]
    decide

theorem goRound_neg_of_le (x : ℝ) (h : x ≤ -(1 / 2)) : goRound x < 0 := by
  unfold goRound
  rw [if_pos (by linarith : x < 0)]
  have h1 : (1 : ℝ) ≤ -x + 1 / 2 := by linarith
  have h2 : (1 : ℤ) ≤ ⌊-x + 1 / 2⌋ := by
    rw [Int.le_floor]
    exact_mod_cast h1
  omega

/-- Claim C4 as amended: the persisted rating is round(R_old + Σ ΔR) with
no clamping; whenever the accumulated value is at most −1/2 the stored
rating is negative. -/
theorem persistedRatingUnclamped (cur games : String → ℤ)
    (rankings : List (List String)) (m : String)
    (h : newRatingReal cur games rankings m ≤ -(1 / 2)) :
    newRatingInt cur games rankings m =
      goRound (newRatingReal cur games rankings m) ∧
    newRatingInt cur games rankings m < 0 :=
  ⟨rfl, goRound_neg_of_le _ h⟩

theorem expectedScore_self (a : ℤ) : expectedScore a a = 1 / 2 := by
  unfold expectedScore
  have hx : (((a : ℤ) : ℝ) - ((a : ℤ) : ℝ)) / 400 = 0 := by ring
  rw [hx, Real.rpow_zero]
  norm_num

theorem expectedScore_diff400 (a b : ℤ) (h : b - a = 400) :
    expectedScore a b = 1 / 11 := by
  unfold expectedScore
  have hc : ((b : ℝ)) - ((a : ℝ)) = 400 := by
    have : ((b - a : ℤ) : ℝ) = ((400 : ℤ) : ℝ) := by rw [h]
    push_cast at this
    linarith
  rw [show (((b : ℤ) : ℝ) - ((a : ℤ) : ℝ)) / 400 = 1 by rw [hc]; norm_num,
    Real.rpow_one]
  norm_num

theorem expectedScore_add (a b : ℤ) :
    expectedScore a b + expectedScore b a = 1 := by
  unfold expectedScore
  have hneg : (((a : ℤ) : ℝ) - ((b : ℤ) : ℝ)) / 400 =
      -((((b : ℤ) : ℝ) - ((a : ℤ) : ℝ)) / 400) := by ring
  rw [hneg, Real.rpow_neg (by norm_num : (0 : ℝ) ≤ 10)]
  have ht : (0 : ℝ) < (10 : ℝ) ^ ((((b : ℤ) : ℝ) - ((a : ℤ) : ℝ)) / 400) :=
    Real.rpow_pos_of_pos (by norm_num) _
  set t := (10 : ℝ) ^ ((((b : ℤ) : ℝ) - ((a : ℤ) : ℝ)) / 400) with hdef
  have h1 : (1 : ℝ) + t ≠ 0 := by nlinarith
  have h2 : t ≠ 0 := ne_of_gt ht
  field_simp
  ring

/-- Claim C3 as amended: for every input, the accumulated ΔR of each model
m equals the claim formula with the expected score oriented from m — that
is, for a pair A < B the update uses ΔR_A = K_A·(sA − E(A,B)) and ΔR_B =
K_B·(sB − E(B,A)) (equivalently 1 − E(A,B)), each unordered compared pair
contributing exactly once to each side, with sA = score[A][B]/N over the N
voters. -/
theorem accumDeltaOrientedExpected (cur games : String → ℤ)
    (rankings : List (List String)) (m : String) :
    accumDelta cur games rankings m = claimDeltaAmended cur games rankings m := by
  unfold accumDelta claimDeltaAmended
  congr 1
  apply List.map_congr_left
  intro o ho
  unfold pairContribution claimPairContributionAmended
  by_cases h : m < o
  · rw [if_pos h]
  · rw [if_neg h]
    have hadd := expectedScore_add (cur m) (cur o)
    have hsub : 1 - expectedScore (cur o) (cur m) = expectedScore (cur m) (cur o) := by
      linarith
    rw [hsub]

theorem c3_accumDelta :
    accumDelta c3cur zeroGames c3rankings "b" = -(250 / 11) := by
  unfold accumDelta
  rw [show pairedWith c3rankings "b" = ["a"] from by decide]
  simp only [List.map_cons, List.map_nil, List.sum_cons, List.sum_nil]
  unfold pairContribution
  rw [if_neg (by rw [String.lt_iff_toList_lt]; decide : ¬("b" : String) < "a")]
  rw [show pairScore c3rankings "b" "a" = 0 from by decide]
  rw [show getKFactor (zeroGames "b") (c3cur "b") = 25 from by decide]
  rw [show c3cur "a" = 1500 from by decide, show c3cur "b" = 1900 from by decide]
  rw [expectedScore_diff400 1500 1900 (by decide)]
  rw [show c3rankings.length = 1 from rfl]
  norm_num

theorem c3_claimDeltaAsWritten :
    claimDeltaAsWritten c3cur zeroGames c3rankings "b" = -(25 / 2) := by
  unfold claimDeltaAsWritten
  rw [show pairedWith c3rankings "b" = ["a"] from by decide]
  simp only [List.map_cons, List.map_nil, List.sum_cons, List.sum_nil]
  unfold claimPairContributionAsWritten
  rw [if_neg (by rw [String.lt_iff_toList_lt]; decide : ¬("b" : String) < "a")]
  rw [show pairScore c3rankings "b" "a" = 0 from by decide]
  rw [show getKFactor (zeroGames "b") (c3cur "b") = 25 from by decide]
  rw [show c3cur "b" = 1900 from by decide]
  rw [expectedScore_self 1900]
  rw [show c3rankings.length = 1 from rfl]
  norm_num

/-- Claim C3 counterexample: with one ballot ranking a (rating 1500) above
b (rating 1900), the code accumulates ΔR_b = K·(0 − (1 − E(a,b))) =
−250/11, whereas the claim formula K·(sB − E(B,B)) evaluates to −25/2 —
E(B,B) is 1/2, not the expected score the code uses. -/
theorem eloDeltaLiteralMismatch :
    accumDelta c3cur zeroGames c3rankings "b" = -(250 / 11) ∧
    claimDeltaAsWritten c3cur zeroGames c3rankings "b" = -(25 / 2) ∧
    accumDelta c3cur zeroGames c3rankings "b" ≠
      claimDeltaAsWritten c3cur zeroGames c3rankings "b" := by
  refine ⟨c3_accumDelta, c3_claimDeltaAsWritten, ?_⟩
  rw [c3_accumDelta, c3_claimDeltaAsWritten]
  norm_num

theorem c4_newRatingReal :
    newRatingReal c4cur zeroGames c4rankings "a" = -(25 / 11) := by
  unfold newRatingReal accumDelta
  rw [show pairedWith c4rankings "a" = ["b"] from by decide]
  simp only [List.map_cons, List.map_nil, List.sum_cons, List.sum_nil]
  unfold pairContribution
  rw [if_pos (by rw [String.lt_iff_toList_lt]; decide : ("a" : String) < "b")]
  rw [show pairScore c4rankings "a" "b" = 0 from by decide]
  rw [show getKFactor (zeroGames "a") (c4cur "a") = 25 from by decide]
  rw [show c4cur "a" = 0 from by decide, show c4cur "b" = 400 from by decide]
  rw [expectedScore_diff400 0 400 (by decide)]
  rw [show c4rankings.length = 1 from rfl]
  norm_num

/-- Claim C4 counterexample: starting from a stored rating 0 for model a
(rating 400 for b) and the single ballot ranking b above a, the code
persists round(0 − 25/11) = −2 for a: the stored rating is negative, so no
clamping to 0 takes place. -/
theorem persistedRatingNegative :
    newRatingInt c4cur zeroGames c4rankings "a" = -2 ∧
    newRatingInt c4cur zeroGames c4rankings "a" < 0 := by
  have h : newRatingInt c4cur zeroGames c4rankings "a" = -2 := by
    unfold newRatingInt
    rw [c4_newRatingReal]
    unfold goRound
    rw [if_pos (by norm_num : (-(25 / 11) : ℝ) < 0)]
    rw [show ⌊-(-(25 / 11) : ℝ) + 1 / 2⌋ = 2 from by
      rw [Int.floor_eq_iff]; norm_num]
  exact ⟨h, by rw [h]; norm_num⟩

/-- Witness for the amended claim C4 at the concrete input where model a
holds rating 0 and loses to b: the accumulated value −25/11 is at most
−1/2 and the persisted rating is negative. -/
theorem persistedRatingUnclampedWitness :
    newRatingReal c4cur zeroGames c4rankings "a" ≤ -(1 / 2) ∧
    newRatingInt c4cur zeroGames c4rankings "a" < 0 := by
  have hle : newRatingReal c4cur zeroGames c4rankings "a" ≤ -(1 / 2) := by
    rw [c4_newRatingReal]
    norm_num
  exact ⟨hle, (persistedRatingUnclamped c4cur zeroGames c4rankings "a" hle).2⟩

theorem bumpScore_cons_hit (k : String) (s : ℕ) (rest : List (String × Nat))
    (pts : ℕ) :
    bumpScore ((k, s) :: rest) k pts = (k, s + pts) :: rest := by
  simp [bumpScore]

theorem bumpScore_cons_miss (k : String) (s : ℕ) (rest : List (String × Nat))
    (lb : String) (pts : ℕ) (hk : k ≠ lb) :
    bumpScore ((k, s) :: rest) lb pts = (k, s) :: bumpScore rest lb pts := by
  simp [bumpScore, hk]

theorem scoreOf_bumpScore (sc : List (String × Nat)) (lb : String) (pts : ℕ)
    (q : String) :
    scoreOf (bumpScore sc lb pts) q =
      scoreOf sc q + (if q = lb then pts else 0) := by
  induction sc with
  | nil =>
      simp only [bumpScore, scoreOf]
      by_cases h : lb = q
      · subst h
        simp
      · rw [if_neg h, if_neg (fun hq : q = lb => h hq.symm)]
  | cons p rest ih =>
      obtain ⟨k, s⟩ := p
      by_cases hk : k = lb
      · subst hk
        by_cases hq : k = q
        · subst hq
          rw [bumpScore_cons_hit]
          simp [scoreOf]
        · rw [bumpScore_cons_hit]
          simp only [scoreOf]
          rw [if_neg hq, if_neg hq, if_neg (fun h : q = k => hq h.symm)]
          simp
      · rw [bumpScore_cons_miss k s rest lb pts hk]
        simp only [scoreOf]
        by_cases hq : k = q
        · rw [if_pos hq, if_pos hq,
            if_neg (fun h : q = lb => hk (hq.trans h))]
          simp
        · rw [if_neg hq, if_neg hq, ih]

theorem bumpScore_keys (sc : List (String × Nat)) (lb : String) (pts : ℕ) :
    (bumpScore sc lb pts).map Prod.fst =
      (if lb ∈ sc.map Prod.fst then sc.map Prod.fst
       else sc.map Prod.fst ++ [lb]) := by
  induction sc with
  | nil => simp [bumpScore]
  | cons p rest ih =>
      obtain ⟨k, s⟩ := p
      by_cases hk : k = lb
      · subst hk
        rw [bumpScore_cons_hit]
        simp
      · rw [bumpScore_cons_miss k s rest lb pts hk]
        simp only [List.map_cons]
        rw [ih]
        by_cases hmem : lb ∈ rest.map Prod.fst
        · rw [if_pos hmem, if_pos (List.mem_cons_of_mem k hmem)]
        · rw [if_neg hmem, if_neg (by
            intro hcon
            rcases List.mem_cons.mp hcon with h | h
            · exact hk h.symm
            · exact hmem h)]
          simp

theorem bumpScore_keysNodup (sc : List (String × Nat)) (lb : String) (pts : ℕ)
    (h : (sc.map Prod.fst).Nodup) :
    ((bumpScore sc lb pts).map Prod.fst).Nodup := by
  rw [bumpScore_keys]
  by_cases hmem : lb ∈ sc.map Prod.fst
  · simp [hmem, h]
  · simp [hmem, h, List.nodup_append]

theorem mem_bumpScore (sc : List (String × Nat)) (lb : String) (pts : ℕ)
    (p : String × Nat) (h : p ∈ bumpScore sc lb pts) :
    p.1 ∈ sc.map Prod.fst ∨ p.1 = lb := by
  induction sc with
  | nil =>
      simp only [bumpScore, List.mem_singleton] at h
      subst h
      exact Or.inr rfl
  | cons q rest ih =>
      obtain ⟨k, s⟩ := q
      by_cases hk : k = lb
      · subst hk
        rw [bumpScore_cons_hit] at h
        rcases List.mem_cons.mp h with rfl | h2
        · exact Or.inr rfl
        · exact Or.inl (by
            simp only [List.map_cons]
            exact List.mem_cons_of_mem _ (List.mem_map.mpr ⟨p, h2, rfl⟩))
      · rw [bumpScore_cons_miss k s rest lb pts hk] at h
        rcases List.mem_cons.mp h with rfl | h2
        · exact Or.inl (by simp)
        · rcases ih h2 with h3 | h3
          · exact Or.inl (by
              simp only [List.map_cons]
              exact List.mem_cons_of_mem _ h3)
          · exact Or.inr h3

theorem scoreOf_of_mem_keysNodup (sc : List (String × Nat)) (k : String)
    (s : ℕ) (hmem : (k, s) ∈ sc) (hnd : (sc.map Prod.fst).Nodup) :
    scoreOf sc k = s := by
  induction sc with
  | nil => simp at hmem
  | cons p rest ih =>
      obtain ⟨k0, s0⟩ := p
      simp only [List.map_cons, List.nodup_cons] at hnd
      rcases List.mem_cons.mp hmem with heq | hmem2
      · injection heq with h1 h2
        subst h1
        subst h2
        simp [scoreOf]
      · have hk0 : k0 ≠ k := by
          intro h
          subst h
          exact hnd.1 (List.mem_map.mpr ⟨(k0, s), hmem2, rfl⟩)
        simp [scoreOf, hk0]
        exact ih hmem2 hnd.2

theorem entry_mem_of_scoreOf_pos (sc : List (String × Nat)) (l : String)
    (h : 0 < scoreOf sc l) : (l, scoreOf sc l) ∈ sc := by
  induction sc with
  | nil => simp [scoreOf] at h
  | cons p rest ih =>
      obtain ⟨k, s⟩ := p
      by_cases hk : k = l
      · subst hk
        simp only [scoreOf, if_pos rfl] at h ⊢
        exact List.mem_cons_self _ _
      · simp only [scoreOf, if_neg hk] at h ⊢
        exact List.mem_cons_of_mem _ (ih h)

theorem scoreOf_pairFold (n : ℕ) (pl : List (ℕ × String))
    (sc : List (String × Nat)) (q : String) :
    scoreOf (pl.foldl (fun s2 p => bumpScore s2 p.2 (n - p.1)) sc) q =
      scoreOf sc q + (pl.map fun p => if p.2 = q then n - p.1 else 0).sum := by
  induction pl generalizing sc with
  | nil => simp
  | cons p pl ih =>
      simp only [List.foldl_cons, List.map_cons, List.sum_cons]
      rw [ih, scoreOf_bumpScore]
      by_cases h : q = p.2
      · rw [if_pos h, if_pos h.symm]
        omega
      · rw [if_neg h, if_neg (fun hh : p.2 = q => h hh.symm)]
        omega

theorem scoreOf_tallyFold (votes : List VoteRow) (sc : List (String × Nat))
    (q : String) :
    scoreOf (votes.foldl
      (fun sc v => (v.ranked.enum.foldl
        (fun sc p => bumpScore sc p.2 (v.ranked.length - p.1)) sc)) sc) q =
      scoreOf sc q + unweightedBorda votes q := by
  induction votes generalizing sc with
  | nil => simp [unweightedBorda]
  | cons v votes ih =>
      simp only [List.foldl_cons]
      rw [ih, scoreOf_pairFold]
      simp only [unweightedBorda, List.map_cons, List.sum_cons]
      omega

theorem tallyScores_scoreOf (votes : List VoteRow) (q : String) :
    scoreOf (tallyScores votes) q = unweightedBorda votes q := by
  have h := scoreOf_tallyFold votes [] q
  simpa [tallyScores, scoreOf] using h

theorem pairFold_keysNodup (n : ℕ) (pl : List (ℕ × String))
    (sc : List (String × Nat)) (h : (sc.map Prod.fst).Nodup) :
    (((pl.foldl (fun s2 p => bumpScore s2 p.2 (n - p.1)) sc)).map Prod.fst).Nodup := by
  induction pl generalizing sc with
  | nil => exact h
  | cons p pl ih =>
      simp only [List.foldl_cons]
      exact ih _ (bumpScore_keysNodup _ _ _ h)

theorem tallyFold_keysNodup (votes : List VoteRow) (sc : List (String × Nat))
    (h : (sc.map Prod.fst).Nodup) :
    ((votes.foldl
      (fun sc v => (v.ranked.enum.foldl
        (fun sc p => bumpScore sc p.2 (v.ranked.length - p.1)) sc)) sc).map
      Prod.fst).Nodup := by
  induction votes generalizing sc with
  | nil => exact h
  | cons v votes ih =>
      simp only [List.foldl_cons]
      exact ih _ (pairFold_keysNodup _ _ _ h)

theorem tallyScores_keysNodup (votes : List VoteRow) :
    ((tallyScores votes).map Prod.fst).Nodup :=
  tallyFold_keysNodup votes [] (by simp)

theorem keys_mem_bump (sc : List (String × Nat)) (lb : String) (pts : ℕ)
    (x : String) (h : x ∈ (bumpScore sc lb pts).map Prod.fst) :
    x ∈ sc.map Prod.fst ∨ x = lb := by
  rw [bumpScore_keys] at h
  by_cases hmem : lb ∈ sc.map Prod.fst
  · rw [if_pos hmem] at h
    exact Or.inl h
  · rw [if_neg hmem] at h
    rcases List.mem_append.mp h with h1 | h1
    · exact Or.inl h1
    · exact Or.inr (List.mem_singleton.mp h1)

theorem pairFold_keys_mem (n : ℕ) (pl : List (ℕ × String))
    (sc : List (String × Nat)) (x : String)
    (h : x ∈ ((pl.foldl (fun s2 p => bumpScore s2 p.2 (n - p.1)) sc).map Prod.fst)) :
    x ∈ sc.map Prod.fst ∨ x ∈ pl.map Prod.snd := by
  induction pl generalizing sc with
  | nil => exact Or.inl h
  | cons r pl ih =>
      simp only [List.foldl_cons] at h
      rcases ih (bumpScore sc r.2 (n - r.1)) h with h1 | h1
      · rcases keys_mem_bump _ _ _ _ h1 with h2 | h2
        · exact Or.inl h2
        · exact Or.inr (by simp [h2])
      · exact Or.inr (by
          simp only [List.map_cons]
          exact List.mem_cons_of_mem _ h1)

theorem tallyFold_keys_mem (votes : List VoteRow) (sc : List (String × Nat))
    (x : String)
    (h : x ∈ ((votes.foldl
      (fun sc v => (v.ranked.enum.foldl
        (fun sc p => bumpScore sc p.2 (v.ranked.length - p.1)) sc)) sc).map
      Prod.fst)) :
    x ∈ sc.map Prod.fst ∨ x ∈ ballotLabels votes := by
  induction votes generalizing sc with
  | nil => exact Or.inl h
  | cons v votes ih =>
      simp only [List.foldl_cons] at h
      rcases ih _ h with h1 | h1
      · rcases pairFold_keys_mem _ _ _ _ h1 with h2 | h2
        · exact Or.inl h2
        · rw [List.enum_map_snd] at h2
          exact Or.inr (by
            simp only [ballotLabels, List.map_cons, List.flatten_cons]
            exact List.mem_append.mpr (Or.inl h2))
      · exact Or.inr (by
          simp only [ballotLabels, List.map_cons, List.flatten_cons]
          exact List.mem_append.mpr (Or.inr h1))

theorem tallyScores_keys_mem (votes : List VoteRow) (x : String)
    (h : x ∈ (tallyScores votes).map Prod.fst) : x ∈ ballotLabels votes := by
  rcases tallyFold_keys_mem votes [] x (by simpa [tallyScores] using h) with h1 | h1
  · simp at h1
  · exact h1

theorem maxScan_spec (sc : List (String × Nat)) (init : String × Nat) :
    (sc.foldl (fun acc p => if p.2 > acc.2 then p else acc) init = init ∨
      sc.foldl (fun acc p => if p.2 > acc.2 then p else acc) init ∈ sc) ∧
    init.2 ≤ (sc.foldl (fun acc p => if p.2 > acc.2 then p else acc) init).2 ∧
    ∀ p ∈ sc, p.2 ≤ (sc.foldl (fun acc p => if p.2 > acc.2 then p else acc) init).2 := by
  induction sc generalizing init with
  | nil => exact ⟨Or.inl rfl, le_refl _, by simp⟩
  | cons p rest ih =>
      simp only [List.foldl_cons]
      by_cases hp : p.2 > init.2
      · rw [if_pos hp]
        obtain ⟨hcase, hinit, hall⟩ := ih p
        refine ⟨?_, le_trans (le_of_lt hp) hinit, ?_⟩
        · rcases hcase with h | h
          · exact Or.inr (by rw [h]; exact List.mem_cons_self p rest)
          · exact Or.inr (List.mem_cons_of_mem p h)
        · intro q hq
          rcases List.mem_cons.mp hq with rfl | hq2
          · exact hinit
          · exact hall q hq2
      · rw [if_neg hp]
        obtain ⟨hcase, hinit, hall⟩ := ih init
        refine ⟨?_, hinit, ?_⟩
        · rcases hcase with h | h
          · exact Or.inl h
          · exact Or.inr (List.mem_cons_of_mem p h)
        · intro q hq
          rcases List.mem_cons.mp hq with rfl | hq2
          · exact le_trans (by omega : q.2 ≤ init.2) hinit
          · exact hall q hq2

theorem determineWinner_eq_of_unique_max (votes : List VoteRow) (L : String)
    (hpos : 0 < unweightedBorda votes L)
    (hmax : ∀ l ∈ ballotLabels votes, l ≠ L →
      unweightedBorda votes l < unweightedBorda votes L) :
    determineWinner votes = L := by
  have hscore : scoreOf (tallyScores votes) L = unweightedBorda votes L :=
    tallyScores_scoreOf votes L
  have hmem : (L, unweightedBorda votes L) ∈ tallyScores votes := by
    have h0 : 0 < scoreOf (tallyScores votes) L := by
      rw [hscore]
      exact hpos
    have h1 := entry_mem_of_scoreOf_pos (tallyScores votes) L h0
    rwa [hscore] at h1
  obtain ⟨hcase, -, hall⟩ := maxScan_spec (tallyScores votes) ("", 0)
  have hge := hall _ hmem
  rcases hcase with hcz | hmemr
  · exfalso
    rw [hcz] at hge
    simp at hge
    omega
  · have hkeys := tallyScores_keysNodup votes
    set r := (tallyScores votes).foldl
      (fun acc p => if p.2 > acc.2 then p else acc) ("", 0) with hrdef
    have hmemr2 : (r.1, r.2) ∈ tallyScores votes := by
      rw [Prod.mk.eta]
      exact hmemr
    have hval : scoreOf (tallyScores votes) r.1 = r.2 :=
      scoreOf_of_mem_keysNodup _ _ _ hmemr2 hkeys
    have hBr : unweightedBorda votes r.1 = r.2 := by
      rw [← tallyScores_scoreOf votes r.1]
      exact hval
    by_cases heq : r.1 = L
    · exact heq
    · exfalso
      have hlbl : r.1 ∈ ballotLabels votes :=
        tallyScores_keys_mem votes r.1 (List.mem_map.mpr ⟨(r.1, r.2), hmemr2, rfl⟩)
      have hlt := hmax r.1 hlbl heq
      rw [hBr] at hlt
      omega

/-- Claim C6 as amended: in tournament mode the winner of a match is the
anonymous label with maximum Borda score Σ (|ballot| − index_in_ballot)
over the collected ballots, computed without the ballot weights (the
weight field is never read), and that label string itself — not the owning
model id — is what advances to the next bracket round. -/
theorem tournamentWinnerUnweightedBorda :
    (∀ (votes : List VoteRow) (L : String), 0 < unweightedBorda votes L →
      (∀ l ∈ ballotLabels votes, l ≠ L →
        unweightedBorda votes l < unweightedBorda votes L) →
      determineWinner votes = L) ∧
    (∀ (oracle : String → String → Option (List VoteRow)) (a b : String)
      (rest : List String) (votes : List VoteRow), oracle a b = some votes →
      roundWinners oracle (a :: b :: rest) =
        determineWinner votes :: roundWinners oracle rest) := by
  refine ⟨determineWinner_eq_of_unique_max, ?_⟩
  intro oracle a b rest votes h
  simp [roundWinners, h]

/-- Witness for the amended claim C6 at a one-ballot match: Response A has
the unique maximal unweighted Borda score and is the string that advances. -/
theorem tournamentWinnerUnweightedBordaWitness :
    determineWinner demoMatchVotes = "Response A" ∧
    roundWinners (fun _ _ => some demoMatchVotes) ("m1" :: "m2" :: []) =
      determineWinner demoMatchVotes ::
        roundWinners (fun _ _ => some demoMatchVotes) [] :=
  ⟨tournamentWinnerUnweightedBorda.1 demoMatchVotes "Response A" (by decide)
      (by decide),
   tournamentWinnerUnweightedBorda.2 (fun _ _ => some demoMatchVotes) "m1" "m2"
      [] demoMatchVotes rfl⟩

theorem parseLoop1_not_found (resp : List Char) (labels : List (List Char)) :
    ∀ seen, (∀ l ∈ labels, foundIn resp l = false) →
      parseLoop1 resp seen labels = ([], seen) := by
  induction labels with
  | nil =>
      intro seen _
      rfl
  | cons l ls ih =>
      intro seen h
      have hl : foundIn resp l = false := h l (List.mem_cons_self l ls)
      rw [show parseLoop1 resp seen (l :: ls) = parseLoop1 resp seen ls from by
        simp [parseLoop1, hl]]
      exact ih seen (fun x hx => h x (List.mem_cons_of_mem l hx))

theorem parseLoop1_spec (resp : List Char) (labels : List (List Char)) :
    ∀ seen, labels.Nodup → (∀ l ∈ labels, l ∉ seen) →
      parseLoop1 resp seen labels =
        (labels.filter (fun l => foundIn resp l),
         seen ++ labels.filter (fun l => foundIn resp l)) := by
  induction labels with
  | nil =>
      intro seen _ _
      simp [parseLoop1]
  | cons l ls ih =>
      intro seen hnd hdis
      have hl : l ∉ seen := hdis l (List.mem_cons_self l ls)
      simp only [List.nodup_cons] at hnd
      by_cases hf : foundIn resp l
      · rw [show parseLoop1 resp seen (l :: ls) =
            (l :: (parseLoop1 resp (seen ++ [l]) ls).1,
             (parseLoop1 resp (seen ++ [l]) ls).2) from by
          simp [parseLoop1, hl, hf]]
        have hdis2 : ∀ x ∈ ls, x ∉ seen ++ [l] := by
          intro x hx
          simp only [List.mem_append, List.mem_singleton]
          rintro (hxs | rfl)
          · exact hdis x (List.mem_cons_of_mem l hx) hxs
          · exact hnd.1 hx
        rw [ih (seen ++ [l]) hnd.2 hdis2]
        simp [List.filter_cons, hf]
      · rw [show parseLoop1 resp seen (l :: ls) = parseLoop1 resp seen ls from by
          simp [parseLoop1, hf]]
        rw [ih seen hnd.2 (fun x hx => hdis x (List.mem_cons_of_mem l hx))]
        simp [List.filter_cons, hf]

theorem parseRanking_perm (resp : List Char) (labels : List (List Char))
    (hnd : labels.Nodup) : (parseRanking resp labels).Perm labels := by
  unfold parseRanking
  rw [parseLoop1_spec resp labels [] hnd (by simp)]
  have hcongr : labels.filter
      (fun l => decide (l ∉ ([] ++ labels.filter (fun l => foundIn resp l)))) =
      labels.filter (fun l => !(foundIn resp l)) := by
    apply List.filter_congr
    intro x hx
    by_cases hf : foundIn resp x <;> simp [hf, hx]
  rw [hcongr]
  exact List.filter_append_perm _ labels

theorem parseRanking_all_not_found (resp : List Char)
    (labels : List (List Char)) (h : ∀ l ∈ labels, foundIn resp l = false) :
    parseRanking resp labels = labels := by
  unfold parseRanking
  rw [parseLoop1_not_found resp labels [] h]
  simp

/-- Claim C7: a vote-request ballot is always a duplicate-free permutation
of the session labels handed to the parser (hence of a subset of the
session's labels); when no label can be found in the model answer the
ballot is the labels in their input order; the vote-collection stage never
returns an error (a failed voter is skipped); and persisted weights follow
the policy — 1.5 for the mystery judge, 1.0 for other models, 0.5 for the
user ballot. -/
theorem ballotLegalityAndWeights :
    (∀ (resp : List Char) (labels : List (List Char)), labels.Nodup →
      (requestVoteRanking resp labels).Perm labels ∧
        (requestVoteRanking resp labels).Nodup) ∧
    (∀ (resp : List Char) (labels : List (List Char)),
      (∀ l ∈ labels, foundIn resp l = false) →
      requestVoteRanking resp labels = labels) ∧
    (∀ (mystery : Option String) (models : List String)
      (oracle : String → Option (List String)),
      (collectVotes mystery models oracle).2 = none ∧
      ∀ v ∈ (collectVotes mystery models oracle).1,
        v.voterType = "model" ∧
        v.weight = (if mystery = some v.voterId then (3 : ℚ) / 2 else 1)) ∧
    (∀ (uid : String) (ranking : List String),
      (submitUserVote uid ranking).voterType = "user" ∧
      (submitUserVote uid ranking).weight = 1 / 2) := by
  refine ⟨?_, ?_, ?_, ?_⟩
  · intro resp labels hnd
    have hperm : (parseRanking resp labels).Perm labels := parseRanking_perm resp labels hnd
    unfold requestVoteRanking
    by_cases he : (parseRanking resp labels).isEmpty
    · rw [if_pos he]
      exact ⟨List.Perm.refl labels, hnd⟩
    · rw [if_neg he]
      exact ⟨hperm, hperm.nodup_iff.mpr hnd⟩
  · intro resp labels h
    unfold requestVoteRanking
    rw [parseRanking_all_not_found resp labels h]
    by_cases he : labels.isEmpty
    · rw [if_pos he]
    · rw [if_neg he]
  · intro mystery models oracle
    refine ⟨rfl, ?_⟩
    intro v hv
    simp only [collectVotes, List.mem_filterMap, Option.map_eq_some'] at hv
    obtain ⟨m, hm, ranking, hrank, hveq⟩ := hv
    rw [← hveq]
    exact ⟨rfl, rfl⟩
  · intro uid ranking
    exact ⟨rfl, rfl⟩

/-- Witness for claim C7: a concrete model answer that ranks Response B
first yields the permuted duplicate-free ballot, an answer containing no
label falls back to the input order, the vote collection returns no error,
and the user-vote weight is 0.5. -/
theorem ballotLegalityAndWeightsWitness :
    (requestVoteRanking ("Response B, Response A".data)
        ["Response A".data, "Response B".data]).Perm
      ["Response A".data, "Response B".data] ∧
    requestVoteRanking ("no labels here".data)
        ["Response A".data, "Response B".data] =
      ["Response A".data, "Response B".data] ∧
    (collectVotes (some "m3") ["m1", "m2"] demoVoteOracle).2 = none ∧
    (submitUserVote "u1" ["Response A"]).weight = 1 / 2 :=
  ⟨(ballotLegalityAndWeights.1 ("Response B, Response A".data)
      ["Response A".data, "Response B".data] (by decide)).1,
   ballotLegalityAndWeights.2.1 ("no labels here".data)
      ["Response A".data, "Response B".data] (by decide),
   (ballotLegalityAndWeights.2.2.1 (some "m3") ["m1", "m2"] demoVoteOracle).1,
   (ballotLegalityAndWeights.2.2.2 "u1" ["Response A"]).2⟩

/-- Witness for the amended claim C8 at two distinct models with both
streams succeeding, and a concrete tournament match pair. -/
theorem labelAssignmentByPositionWitness :
    (generateLabels (["m1", "m2"] : List String).length).Nodup ∧
    ((respLabelAssignment ["m1", "m2"]).map Prod.fst).Nodup ∧
    ((respLabelAssignment ["m1", "m2"]).map Prod.fst) = ["m1", "m2"] ∧
    ((respLabelAssignment ["m1", "m2"]).map Prod.snd) =
      generateLabels (["m1", "m2"] : List String).length ∧
    (((collectResponses ["m1", "m2"] demoOutcomeAllOk 1).1).map
        fun resp => (resp.modelId, resp.label)) =
      (respLabelAssignment ["m1", "m2"]).filter
        (fun p => !(demoOutcomeAllOk p.1).failed) ∧
    tournamentLabelPairs ("t1" :: "t2" :: []) =
      ("t1", "Response A") :: ("t2", "Response B") :: tournamentLabelPairs [] :=
  labelAssignmentByPosition ["m1", "m2"] demoOutcomeAllOk 1 "t1" "t2" []
    (by decide) (by decide)

theorem roundWinners_length_le (oracle : String → String → Option (List VoteRow)) :
    ∀ (n : Nat) (l : List String), l.length ≤ n →
      (roundWinners oracle l).length ≤ (l.length + 1) / 2 := by
  intro n
  induction n with
  | zero =>
      intro l hl
      have hnil : l = [] := List.length_eq_zero.mp (Nat.le_zero.mp hl)
      subst hnil
      simp [roundWinners]
  | succ n ih =>
      intro l hl
      rcases l with - | ⟨a, rest1⟩
      · simp [roundWinners]
      · rcases rest1 with - | ⟨b, rest⟩
        · simp [roundWinners]
        · have hr : rest.length ≤ n := by
            simp only [List.length_cons] at hl
            omega
          have hrec := ih rest hr
          rcases hm : oracle a b with - | v <;>
            · simp only [roundWinners, hm, List.length_append, List.length_cons,
                List.length_nil]
              omega

theorem debateRoundsLoop_no_terminal (models : List String)
    (outcome : Nat → String → StreamOutcome) (rounds : List Nat) :
    ((debateRoundsLoop models outcome rounds).1).countP Ev.isTerminal = 0 := by
  induction rounds with
  | nil => rfl
  | cons r rest ih =>
      by_cases hs : ((collectResponses models (outcome r) r).2).isSome
      · simp only [debateRoundsLoop, hs, if_true]
        exact collectResponsesEvents_no_terminal models (outcome r)
      · simp only [debateRoundsLoop, hs, Bool.false_eq_true, if_false]
        rw [List.countP_append, collectResponsesEvents_no_terminal, ih]

theorem tournamentMatchEvents_no_terminal (mystery : Option String)
    (mOut : String → String → String → StreamOutcome)
    (mVotes : String → String → String → Option (List String)) (a b : String) :
    (tournamentMatchEvents mystery mOut mVotes a b).countP Ev.isTerminal = 0 := by
  unfold tournamentMatchEvents
  rw [List.countP_append, collectResponsesEvents_no_terminal]
  rcases hm : tournamentMatchBallots mystery mOut mVotes a b with - | v
  · simp
  · show 0 + ((v.map fun w => Ev.voteReceived w.voterId).countP Ev.isTerminal) = 0
    rw [voteReceivedEvents_no_terminal]

theorem tournamentRoundEvents_no_terminal (mystery : Option String)
    (mOut : String → String → String → StreamOutcome)
    (mVotes : String → String → String → Option (List String)) :
    ∀ (n : Nat) (l : List String), l.length ≤ n →
      (tournamentRoundEvents mystery mOut mVotes l).countP Ev.isTerminal = 0 := by
  intro n
  induction n with
  | zero =>
      intro l hl
      have hnil : l = [] := List.length_eq_zero.mp (Nat.le_zero.mp hl)
      subst hnil
      rfl
  | succ n ih =>
      intro l hl
      rcases l with - | ⟨a, rest1⟩
      · rfl
      · rcases rest1 with - | ⟨b, rest⟩
        · rfl
        · have hr : rest.length ≤ n := by
            simp only [List.length_cons] at hl
            omega
          simp only [tournamentRoundEvents, List.countP_append]
          rw [tournamentMatchEvents_no_terminal, ih rest hr]

theorem tournamentLoop_no_terminal (mystery : Option String)
    (mOut : String → String → String → StreamOutcome)
    (mVotes : String → String → String → Option (List String)) :
    ∀ (n : Nat) (remaining : List String), remaining.length ≤ n →
      ((tournamentLoop mystery mOut mVotes remaining).1).countP Ev.isTerminal = 0 := by
  intro n
  induction n with
  | zero =>
      intro remaining h
      rw [tournamentLoop, dif_pos (by omega : remaining.length ≤ 1)]
      rfl
  | succ n ih =>
      intro remaining h
      rw [tournamentLoop]
      by_cases h1 : remaining.length ≤ 1
      · rw [dif_pos h1]
        rfl
      · rw [dif_neg h1]
        have hlen : (roundWinners (tournamentMatchBallots mystery mOut mVotes)
            remaining).length ≤ n := by
          have hb := roundWinners_length_le (tournamentMatchBallots mystery mOut mVotes)
            remaining.length remaining (le_refl _)
          omega
        show (tournamentRoundEvents mystery mOut mVotes remaining ++
            (tournamentLoop mystery mOut mVotes
              (roundWinners (tournamentMatchBallots mystery mOut mVotes)
                remaining)).1).countP Ev.isTerminal = 0
        rw [List.countP_append,
          tournamentRoundEvents_no_terminal mystery mOut mVotes remaining.length
            remaining (le_refl _),
          ih _ hlen]

theorem championEvents_no_terminal (l : List String) :
    (championEvents l).countP Ev.isTerminal = 0 := by
  rcases l with - | ⟨c, - | ⟨d, rest⟩⟩ <;> simp [championEvents, Ev.isTerminal]

/-- A debate-mode run publishes exactly one terminal event, and it is the
last event of the stream. -/
theorem runDebateOneTerminalEvent (models : List String)
    (outcome : Nat → String → StreamOutcome) (rounds : Nat)
    (mystery : Option String) (voteOracle : String → Option (List String))
    (chairperson : Option String) (synthResult : Option String) :
    ((runDebate models outcome rounds mystery voteOracle chairperson
        synthResult).2.countP Ev.isTerminal) = 1 ∧
    ∃ front last, (runDebate models outcome rounds mystery voteOracle chairperson
        synthResult).2 = front ++ [last] ∧ Ev.isTerminal last = true := by
  rcases hx : (debateRoundsLoop models outcome (List.range' 1 rounds)).2 with - | e
  · by_cases hs : chairperson.isSome && synthResult.isSome
    · constructor
      · simp [runDebate, hx, hs, List.countP_cons, List.countP_append,
          debateRoundsLoop_no_terminal, voteReceivedEvents_no_terminal, Ev.isTerminal]
      · refine ⟨Ev.councilStarted ::
          (debateRoundsLoop models outcome (List.range' 1 rounds)).1 ++
          ((collectVotes mystery models voteOracle).1.map
            fun v => Ev.voteReceived v.voterId) ++
          [Ev.synthesisComplete], Ev.councilCompleted, ?_, rfl⟩
        simp [runDebate, hx, hs]
    · constructor
      · simp [runDebate, hx, hs, List.countP_cons, List.countP_append,
          debateRoundsLoop_no_terminal, voteReceivedEvents_no_terminal, Ev.isTerminal]
      · refine ⟨Ev.councilStarted ::
          (debateRoundsLoop models outcome (List.range' 1 rounds)).1 ++
          ((collectVotes mystery models voteOracle).1.map
            fun v => Ev.voteReceived v.voterId),
          Ev.councilFailed "synthesis error", ?_, rfl⟩
        simp [runDebate, hx, hs]
  · constructor
    · simp [runDebate, hx, List.countP_cons, List.countP_append,
        debateRoundsLoop_no_terminal, Ev.isTerminal]
    · refine ⟨Ev.councilStarted ::
        (debateRoundsLoop models outcome (List.range' 1 rounds)).1,
        Ev.councilFailed e, ?_, rfl⟩
      simp [runDebate, hx]

/-- A tournament-mode run publishes exactly one terminal event — always
council.completed, since tournament mode never fails the session — and it
is the last event of the stream. -/
theorem runTournamentOneTerminalEvent (models : List String)
    (mystery : Option String) (mOut : String → String → String → StreamOutcome)
    (mVotes : String → String → String → Option (List String)) :
    ((runTournament models mystery mOut mVotes).2.countP Ev.isTerminal) = 1 ∧
    ∃ front last, (runTournament models mystery mOut mVotes).2 =
      front ++ [last] ∧ Ev.isTerminal last = true := by
  constructor
  · simp [runTournament, List.countP_cons, List.countP_append,
      tournamentLoop_no_terminal mystery mOut mVotes models.length models
        (le_refl _),
      championEvents_no_terminal, Ev.isTerminal]
  · refine ⟨Ev.councilStarted :: (tournamentLoop mystery mOut mVotes models).1 ++
      championEvents (tournamentLoop mystery mOut mVotes models).2,
      Ev.councilCompleted, ?_, rfl⟩
    simp [runTournament]

/-- Claim C9 as amended: in every dispatched mode — standard, debate, and
tournament alike — a session run that is never cancelled publishes exactly
one terminal event, and it is the last event of the stream (standard and
debate runs end in exactly one of council.completed or council.failed;
tournament runs always end in council.completed, as tournament mode never
fails the session). CancelSession, however, broadcasts council.cancelled
unconditionally without reading the session status and without stopping
the background run, so a cancel arriving after (or racing) completion
yields a stream with a second terminal event and events after a terminal
event. -/
theorem runOneTerminalEvent (models : List String)
    (outcome : String → StreamOutcome) (doutcome : Nat → String → StreamOutcome)
    (rounds : Nat) (mystery : Option String)
    (voteOracle : String → Option (List String)) (chairperson : Option String)
    (synthResult : Option String)
    (mOut : String → String → String → StreamOutcome)
    (mVotes : String → String → String → Option (List String)) :
    (((runStandard models outcome mystery voteOracle chairperson
        synthResult).events.countP Ev.isTerminal) = 1 ∧
      ∃ front last, (runStandard models outcome mystery voteOracle chairperson
        synthResult).events = front ++ [last] ∧ Ev.isTerminal last = true) ∧
    (((runDebate models doutcome rounds mystery voteOracle chairperson
        synthResult).2.countP Ev.isTerminal) = 1 ∧
      ∃ front last, (runDebate models doutcome rounds mystery voteOracle
        chairperson synthResult).2 = front ++ [last] ∧ Ev.isTerminal last = true) ∧
    (((runTournament models mystery mOut mVotes).2.countP Ev.isTerminal) = 1 ∧
      ∃ front last, (runTournament models mystery mOut mVotes).2 =
        front ++ [last] ∧ Ev.isTerminal last = true) :=
  ⟨runStandardOneTerminalEvent models outcome mystery voteOracle chairperson
      synthResult,
   runDebateOneTerminalEvent models doutcome rounds mystery voteOracle
      chairperson synthResult,
   runTournamentOneTerminalEvent models mystery mOut mVotes⟩

end Council
